import Mathlib

/-!
Verification of the domain-scoped incremental web crawler
(`src/infinitheism/utils/crawl.py`, class `WebCrawler`).

The development shallowly embeds the crawler: URLs and page content are
strings, the filesystem is the list of artifact paths that exist, the
persisted visited-set and queue are lists of strings, and the externally
observable actions of a run (persisting the visited-set, initiating a
fetch, logging a scrape exception, persisting the queue) are recorded in
an event log.  The fetch engine (`crawler.arun`) is an oracle
`String → FetchOutcome` that can succeed with markdown, report failure,
or raise.  Python `try`/`except` blocks are translated by making every
raising operation return through the branch that the enclosing handler
would take, exactly at the point in the source where the handler sits.
-/

namespace Crawl

/-! ### Character and string utilities (Python `in`, `split`, `strip`) -/

/-- Python `s.startswith(pat)` on character lists. -/
def startsWithL : List Char → List Char → Bool
  | [], _ => true
  | _ :: _, [] => false
  | p :: ps, c :: cs => p == c && startsWithL ps cs

/-- Python substring containment `pat in s` on character lists. -/
def substrL (pat : List Char) : List Char → Bool
  | [] => pat.isEmpty
  | c :: cs => startsWithL pat (c :: cs) || substrL pat cs

/-- Python substring containment `pat in s` on strings. -/
def substrS (pat s : String) : Bool := substrL pat.toList s.toList

/-- Python `s.split('#')[0]` on character lists: the part before the first hash. -/
def beforeHashL (s : List Char) : List Char := s.takeWhile (fun c => !(c == '#'))

/-- Python `s.split('#')[0]` on strings. -/
def beforeHashS (s : String) : String := String.mk (beforeHashL s.toList)

/-- Python `s.strip(chars)`: remove every leading and trailing character that
occurs in the charset `chars` (the argument is a set of characters). -/
def pyStripL (chars s : List Char) : List Char :=
  ((s.dropWhile (fun c => decide (c ∈ chars))).reverse.dropWhile
    (fun c => decide (c ∈ chars))).reverse

/-! ### Model of `urllib.parse.urlparse` netloc and path -/

/-- Split a character list at its first colon: `some (before, after)`. -/
def splitFirstColon : List Char → Option (List Char × List Char)
  | [] => none
  | c :: rest =>
    if c == ':' then some ([], rest)
    else match splitFirstColon rest with
      | some (b, a) => some (c :: b, a)
      | none => none

/-- Characters allowed in a URL scheme (`urllib.parse.scheme_chars`). -/
def isSchemeChar (c : Char) : Bool :=
  c.isAlpha || c.isDigit || c == '+' || c == '-' || c == '.'

/-- Python `urlsplit` accepts the part before the first colon as a scheme when
it is nonempty, starts with an ASCII letter, and has only scheme characters. -/
def validScheme : List Char → Bool
  | [] => false
  | c :: cs => c.isAlpha && (c :: cs).all isSchemeChar

/-- Drop a valid scheme (and its colon) from the front of a URL, as
`urlsplit` does before looking for the netloc. -/
def dropSchemeL (s : List Char) : List Char :=
  match splitFirstColon s with
  | some (b, a) => if validScheme b then a else s
  | none => s

/-- A character that does not terminate the netloc (`urlsplit` stops the
netloc at the first of `/`, `?`, `#`). -/
def notNetlocEnd (c : Char) : Bool := !(c == '/') && !(c == '?') && !(c == '#')

/-- The netloc of a URL whose scheme has already been dropped: present only
behind a leading `//`, running to the first `/`, `?` or `#`. -/
def netlocRaw : List Char → List Char
  | c :: d :: r => if c == '/' && d == '/' then r.takeWhile notNetlocEnd else []
  | _ => []

/-- The characters following the netloc of a URL whose scheme has already
been dropped (the whole remainder when there is no `//` netloc marker). -/
def restRaw : List Char → List Char
  | c :: d :: r => if c == '/' && d == '/' then r.dropWhile notNetlocEnd else c :: d :: r
  | t => t

/-- `urlparse(url).netloc` on character lists. -/
def netlocL (s : List Char) : List Char := netlocRaw (dropSchemeL s)

/-- The characters of the URL that follow the netloc (or follow the scheme
when there is no `//` netloc marker). -/
def restAfterNetloc (s : List Char) : List Char := restRaw (dropSchemeL s)

/-- `urlparse(url).path` on character lists: the rest of the URL up to the
first `?` (query) or `#` (fragment). -/
def pathL (s : List Char) : List Char :=
  (restAfterNetloc s).takeWhile (fun c => !(c == '?') && !(c == '#'))

/-- `urlparse(url).netloc` on strings. -/
def netlocS (s : String) : String := String.mk (netlocL s.toList)

/-! ### The two link-extraction scans of `extract_links`

`re.findall(r'\[.*?\]\((.*?)\)', markdown)` and
`re.findall(r'https://[^\s\)\]]+', markdown)`, with Python `re` semantics:
leftmost match, `.` does not cross a newline, `.*?` is non-greedy with
backtracking, `+` is greedy, and scanning resumes after each match. -/

/-- Match `(.*?)\)`: the shortest run of non-newline characters up to a `)`.
Returns the captured run and the characters after the `)`. -/
def untilParen : List Char → Option (List Char × List Char)
  | [] => none
  | c :: rest =>
    if c == ')' then some ([], rest)
    else if c == '\n' then none
    else match untilParen rest with
      | some (b, r) => some (c :: b, r)
      | none => none

/-- Match `.*?\]\((.*?)\)` against the characters following a `[`: scan a
non-greedy run of non-newline characters to a `](`, capture up to the next
`)`, and on failure of the capture backtrack past that `](`. -/
def afterBracket : List Char → Option (List Char × List Char)
  | [] => none
  | c :: rest =>
    if c == '\n' then none
    else if c == ']' then
      match rest with
      | '(' :: rest2 =>
        match untilParen rest2 with
        | some br => some br
        | none => afterBracket rest
      | _ => afterBracket rest
    else afterBracket rest

/-- Fueled scan for `\[.*?\]\((.*?)\)`: at each `[` try to complete a match;
on success emit the capture and resume after the match, otherwise advance one
character.  Each step consumes at least one input character, so the fuel
passed by `findMdLinks` (length + 1) is never exhausted. -/
def findMdLinksF : Nat → List Char → List (List Char)
  | 0, _ => []
  | _ + 1, [] => []
  | fuel + 1, '[' :: rest =>
    match afterBracket rest with
    | some (b, r) => b :: findMdLinksF fuel r
    | none => findMdLinksF fuel rest
  | fuel + 1, _ :: rest => findMdLinksF fuel rest

/-- All captures of `re.findall(r'\[.*?\]\((.*?)\)', markdown)`. -/
def findMdLinks (cs : List Char) : List (List Char) :=
  findMdLinksF (cs.length + 1) cs

/-- Python `\s` whitespace characters (ASCII). -/
def pyIsSpace (c : Char) : Bool :=
  c == ' ' || c == '\t' || c == '\n' || c == '\r' || c == '\x0b' || c == '\x0c'

/-- A character matched by the class `[^\s\)\]]`. -/
def bareUrlChar (c : Char) : Bool := !(pyIsSpace c || c == ')' || c == ']')

/-- The literal characters `https://`. -/
def httpsLit : List Char := ['h', 't', 't', 'p', 's', ':', '/', '/']

/-- Fueled scan for `https://[^\s\)\]]+`: at each position matching the
literal `https://` take the greedy nonempty run of allowed characters and
resume after it.  Fuel as in `findMdLinksF`. -/
def findBareLinksF : Nat → List Char → List (List Char)
  | 0, _ => []
  | _ + 1, [] => []
  | fuel + 1, c :: rest =>
    if startsWithL httpsLit (c :: rest) then
      let body := ((c :: rest).drop 8).takeWhile bareUrlChar
      if body.isEmpty then findBareLinksF fuel rest
      else (httpsLit ++ body) :: findBareLinksF fuel (((c :: rest).drop 8).dropWhile bareUrlChar)
    else findBareLinksF fuel rest

/-- All matches of `re.findall(r'https://[^\s\)\]]+', markdown)`. -/
def findBareLinks (cs : List Char) : List (List Char) :=
  findBareLinksF (cs.length + 1) cs

/-! ### Model of `urllib.parse.urljoin` -/

/-- Whether the URL carries its own valid scheme. -/
def hasSchemeL (s : List Char) : Bool :=
  match splitFirstColon s with
  | some (b, _) => validScheme b
  | none => false

/-- The scheme of a URL together with its colon, empty when absent. -/
def schemeColonOf (s : List Char) : List Char :=
  match splitFirstColon s with
  | some (b, _) => if validScheme b then b ++ [':'] else []
  | none => []

/-- The directory part of a path: everything up to and including the last
slash, empty when the path has no slash. -/
def dirOf (p : List Char) : List Char :=
  (p.reverse.dropWhile (fun c => !(c == '/'))).reverse

/-- Model of `urllib.parse.urljoin(base, url)` for the URL shapes the crawler
handles: an absolute target with its own scheme is returned unchanged, a
scheme-relative `//…` target inherits the base scheme, a root-relative `/…`
target inherits scheme and netloc, an empty target yields the base, and any
other target is resolved against the directory of the base path (dot-segment
normalization is not modelled). -/
def urljoin (base url : String) : String :=
  let bl := base.toList
  let ul := url.toList
  if hasSchemeL ul then url
  else if startsWithL ['/', '/'] ul then String.mk (schemeColonOf bl ++ ul)
  else if startsWithL ['/'] ul then
    String.mk (schemeColonOf bl ++ ['/', '/'] ++ netlocL bl ++ ul)
  else if ul.isEmpty then base
  else String.mk (schemeColonOf bl ++ ['/', '/'] ++ netlocL bl ++ dirOf (pathL bl) ++ ul)

/-! ### Crawler configuration and the Link Extractor -/

/-- The configuration fixed in `WebCrawler.__init__`: target domain, the
`content` directory the artifacts live under, the crawl ceiling, and the
exclusion patterns. -/
structure Config where
  domain : String
  contentDir : String
  crawl_limit : Nat
  exclude_patterns : List String
  deriving Repr, DecidableEq

/-- Python `set.add` on a list kept duplicate-free. -/
def pyinsert (x : String) (l : List String) : List String :=
  if x ∈ l then l else l ++ [x]

/-- `WebCrawler.extract_links(markdown, base_url)`: both regex scans, each
match resolved against the base URL, filtered to hrefs whose netloc contains
the configured domain, added to the set with the fragment stripped. -/
def extract_links (cfg : Config) (markdown base_url : String) : List String :=
  let step := fun (links : List String) (m : List Char) =>
    let href := urljoin base_url (String.mk m)
    if substrS cfg.domain (netlocS href) then pyinsert (beforeHashS href) links
    else links
  ((findMdLinks markdown.toList) ++ (findBareLinks markdown.toList)).foldl step []

/-! ### The Path Mapper `url2path` -/

/-- Replace every `/` by `__`, Python `.replace('/', '__')`. -/
def expandSlashes : List Char → List Char
  | [] => []
  | c :: cs => (if c == '/' then ['_', '_'] else [c]) ++ expandSlashes cs

/-- `WebCrawler.url2path(url)`: the artifact path
`content_dir / (f'{netloc}{path}'.replace('/', '__').strip("__") + '.md')`.
Note that Python `strip("__")` strips by the charset `{'_'}`. -/
def url2path (cfg : Config) (url : String) : String :=
  cfg.contentDir ++ "/" ++
    String.mk (pyStripL ['_', '_']
      (expandSlashes (netlocL url.toList ++ pathL url.toList)) ++ ['.', 'm', 'd'])

/-! ### The Crawl Engine state machine -/

/-- Outcome of one call of the external fetch engine `crawler.arun(url)`:
a successful render with markdown, a reported failure (`result.success`
false), or an exception raised by the call. -/
inductive FetchOutcome where
  | success (markdown : String)
  | failure (msg : String)
  | raises
  deriving Repr, DecidableEq

/-- Externally observable actions of a run, in order: `save_visited` with the
set it wrote, the initiation of `crawler.arun(url)`, the per-URL handler
logging `[SCRAPE EXCEPTION] url`, and `save_queue` with the queue it wrote
together with the in-memory visited-set at that save. -/
inductive Event where
  | persistVisited (v : List String)
  | fetch (url : String)
  | scrapeExc (url : String)
  | persistQueue (q : List String) (vsnap : List String)
  deriving Repr, DecidableEq

/-- The mutable state of a `WebCrawler` run: the in-memory visited-set and
page counter, the artifact paths existing on disk, the persisted copies of
the visited-set and the queue, and the event log. -/
structure CState where
  visited : List String
  crawled : Nat
  files : List String
  persistedVisited : List String
  persistedQueue : List String
  log : List Event
  deriving Repr, DecidableEq

/-- Whether a URL matches one of the exclusion patterns,
Python `any(ext in url for ext in self.exclude_patterns)`. -/
def excludedBy (cfg : Config) (url : String) : Bool :=
  cfg.exclude_patterns.any (fun p => substrS p url)

/-- `WebCrawler.crawl_and_scrape(url, crawler, session)`.  The whole body sits
in a `try` whose `except Exception` prints `[SCRAPE EXCEPTION]` and returns
`[]`; accordingly both a raising fetch and the crawl-limit `raise` leave
through that handler, keeping every state mutation already performed.  In
order: domain check, visited check, add to visited and `save_visited`, fetch,
failure check, `write_to_file`, `extract_links`, exclusion filter of the
links, counter increment, limit check. -/
def crawl_and_scrape (cfg : Config) (fetch : String → FetchOutcome)
    (url : String) (s : CState) : List String × CState :=
  if substrS cfg.domain (netlocS url) = false then ([], s)
  else if url ∈ s.visited then ([], s)
  else
    let v' := pyinsert url s.visited
    let s1 : CState := { s with visited := v', persistedVisited := v',
                                log := s.log ++ [Event.persistVisited v'] }
    match fetch url with
    | FetchOutcome.raises =>
        ([], { s1 with log := s1.log ++ [Event.fetch url, Event.scrapeExc url] })
    | FetchOutcome.failure _ =>
        ([], { s1 with log := s1.log ++ [Event.fetch url] })
    | FetchOutcome.success md =>
        let s2 : CState := { s1 with log := s1.log ++ [Event.fetch url],
                                     files := pyinsert (url2path cfg url) s1.files }
        let filtered := (extract_links cfg md url).filter
          (fun l => !(excludedBy cfg l))
        let s3 : CState := { s2 with crawled := s2.crawled + 1 }
        if s3.crawled > cfg.crawl_limit then
          ([], { s3 with log := s3.log ++ [Event.scrapeExc url] })
        else (filtered, s3)

/-- The per-round `for url in to_crawl` loop of `WebCrawler.crawl`: skip URLs
already visited, matching an exclusion pattern, or whose artifact exists;
otherwise call `crawl_and_scrape` and extend `next_batch` with its links. -/
def processRound (cfg : Config) (fetch : String → FetchOutcome) :
    List String → CState → List String × CState
  | [], s => ([], s)
  | url :: rest, s =>
    if url ∈ s.visited then processRound cfg fetch rest s
    else if excludedBy cfg url then processRound cfg fetch rest s
    else if url2path cfg url ∈ s.files then processRound cfg fetch rest s
    else
      let r := crawl_and_scrape cfg fetch url s
      let r2 := processRound cfg fetch rest r.2
      (r.1 ++ r2.1, r2.2)

/-- The `while to_crawl:` loop of `WebCrawler.crawl`: process the round, keep
the discovered links not yet visited, deduplicate, `save_queue`, and repeat.
The fuel bounds the number of rounds; exhausting it reports an unfinished
run (`false`), while an empty frontier ends the loop normally (`true`). -/
def crawlLoop (cfg : Config) (fetch : String → FetchOutcome) :
    Nat → List String → CState → CState × Bool
  | _, [], s => (s, true)
  | 0, _ :: _, s => (s, false)
  | fuel + 1, url :: rest, s =>
    let r := processRound cfg fetch (url :: rest) s
    let q := (r.1.filter (fun l => !(decide (l ∈ r.2.visited)))).dedup
    let s' : CState := { r.2 with persistedQueue := q,
                                  log := r.2.log ++ [Event.persistQueue q r.2.visited] }
    crawlLoop cfg fetch fuel q s'

/-- `WebCrawler.crawl(seed_url)` after the persisted state has been loaded:
the in-memory visited-set starts as the persisted one, the frontier is the
persisted queue or `[seed_url]` when that queue is empty, and the round loop
runs.  `pv`, `pq` and `f0` are the persisted visited-set, persisted queue and
existing artifact paths at the start of the run. -/
def crawl (cfg : Config) (fetch : String → FetchOutcome) (fuel : Nat)
    (seed : String) (pv pq f0 : List String) : CState × Bool :=
  let s0 : CState := { visited := pv, crawled := 0, files := f0,
                       persistedVisited := pv, persistedQueue := pq, log := [] }
  crawlLoop cfg fetch fuel (if pq.isEmpty then [seed] else pq) s0

/-- `WebCrawler.crawl` including its loading phase.  `self.visited =
self.load_visited()` and `to_crawl = self.load_queue() or [seed_url]` run
before the `try` that guards the round loop, so a raising load propagates
out of `crawl`; everything after the loads is guarded and returns normally. -/
def crawlTop (cfg : Config) (fetch : String → FetchOutcome) (fuel : Nat)
    (seed : String) (loadV loadQ : Except String (List String))
    (f0 : List String) : Except String (CState × Bool) :=
  match loadV with
  | Except.error e => Except.error e
  | Except.ok pv =>
    match loadQ with
    | Except.error e => Except.error e
    | Except.ok pq => Except.ok (crawl cfg fetch fuel seed pv pq f0)

/-! ### Log observations -/

/-- Whether an event is the initiation of a fetch. -/
def isFetchEv : Event → Bool
  | Event.fetch _ => true
  | _ => false

/-- The number of fetches initiated in a log. -/
def fetchCount (l : List Event) : Nat := (l.filter isFetchEv).length

/-- The number of fetches of one particular URL in a log. -/
def fetchCountOf (u : String) (l : List Event) : Nat :=
  (l.filter (fun e => decide (e = Event.fetch u))).length

/-- Checker for the visited-before-fetch ordering: walking the log while
collecting every persisted visited-set, each fetch of a URL must be preceded
by some `save_visited` whose written set already contains that URL. -/
def checkFetchAfterPersist : List Event → List (List String) → Bool
  | [], _ => true
  | Event.persistVisited v :: rest, seen => checkFetchAfterPersist rest (v :: seen)
  | Event.fetch url :: rest, seen =>
      seen.any (fun v => decide (url ∈ v)) && checkFetchAfterPersist rest seen
  | _ :: rest, seen => checkFetchAfterPersist rest seen

/-- The persisted visited-sets of a log segment, newest first, pushed onto an
accumulator; the state `checkFetchAfterPersist` carries across a segment. -/
def pushSeen (l : List Event) (seen : List (List String)) : List (List String) :=
  l.foldl (fun acc e => match e with
    | Event.persistVisited v => v :: acc
    | _ => acc) seen

/-- Checker for the queue-saving invariant: every `save_queue` in the log
wrote a duplicate-free queue disjoint from the visited-set of that moment. -/
def checkQueueSaves : List Event → Bool
  | [] => true
  | Event.persistQueue q v :: rest =>
      decide (q.Nodup ∧ ∀ u, u ∈ q → u ∉ v) && checkQueueSaves rest
  | _ :: rest => checkQueueSaves rest

/-! ### The Path Mapper as the spec words it, and as amended -/

/-- Remove every leading occurrence of the two-character sequence `__`. -/
def dropLeadingDU : List Char → List Char
  | '_' :: '_' :: rest => dropLeadingDU rest
  | l => l

/-- Strip occurrences of the two-character sequence `__` from both ends. -/
def stripDoubleUnders (s : List Char) : List Char :=
  (dropLeadingDU ((dropLeadingDU s).reverse)).reverse

/-- The Path Mapper following the spec's words literally (§4.2): take the
URL's host and path components, replace path separators with a
double-underscore, strip any leading/trailing double-underscores (read as
occurrences of the two-character sequence `__`), append a markdown
extension, and resolve under the configured content directory. -/
def url_to_path_specText (cfg : Config) (url : String) : String :=
  cfg.contentDir ++ "/" ++
    String.mk (stripDoubleUnders
      (expandSlashes (netlocL url.toList ++ pathL url.toList)) ++ ['.', 'm', 'd'])

/-- The Path Mapper as amended: identical to the spec's pipeline except that
all leading and trailing underscore characters are stripped (the charset
semantics of Python `strip("__")`), not only two-character pairs. -/
def url_to_path_amended (cfg : Config) (url : String) : String :=
  cfg.contentDir ++ "/" ++
    String.mk ((((expandSlashes (netlocL url.toList ++ pathL url.toList)).dropWhile
        (fun c => c == '_')).reverse.dropWhile (fun c => c == '_')).reverse
      ++ ['.', 'm', 'd'])

/-! ### Skip disposition of a URL

A URL is skippable in a state when one of the four checks that guard the
fetch (visited-set membership, exclusion pattern, artifact existence, domain
containment) rejects it.  Such a URL is never fetched from that state. -/

/-- One of the four fetch-guarding checks rejects `url` in state `s`. -/
def Skippable (cfg : Config) (url : String) (s : CState) : Prop :=
  url ∈ s.visited ∨ excludedBy cfg url = true ∨ url2path cfg url ∈ s.files ∨
    substrS cfg.domain (netlocS url) = false

/-! ### Concrete scenarios used to evaluate the claims -/

/-- A crawl configuration with an unreachable ceiling. -/
def cfgD : Config :=
  { domain := "d.com", contentDir := "c", crawl_limit := 100, exclude_patterns := [] }

/-- The configuration of the ceiling scenario: `crawl_limit = 0`. -/
def cfgLimit0 : Config :=
  { domain := "d.com", contentDir := "c", crawl_limit := 0, exclude_patterns := [] }

/-- A fetch engine for which every page renders to empty markdown. -/
def fetchAllSuccess : String → FetchOutcome := fun _ => FetchOutcome.success ""

/-- A fetch engine whose every call raises. -/
def fetchRaises : String → FetchOutcome := fun _ => FetchOutcome.raises

/-- A crawler state with nothing visited, nothing crawled and no artifacts. -/
def emptyState : CState :=
  { visited := [], crawled := 0, files := [], persistedVisited := [],
    persistedQueue := [], log := [] }

/-- A state in which the artifact of `https://d.com/a` already exists. -/
def stateWithArtifact : CState :=
  { emptyState with files := [url2path cfgD "https://d.com/a"] }

end Crawl

namespace Crawl

/-! ### Basic lemmas about `pyinsert` -/

theorem mem_pyinsert {y x : String} {l : List String} :
    y ∈ pyinsert x l ↔ y = x ∨ y ∈ l := by
  unfold pyinsert
  split
  · rename_i h
    constructor
    · exact fun hy => Or.inr hy
    · rintro (rfl | hy)
      · exact h
      · exact hy
  · simp [List.mem_append, or_comm]

theorem mem_pyinsert_self (x : String) (l : List String) : x ∈ pyinsert x l :=
  mem_pyinsert.mpr (Or.inl rfl)

theorem subset_pyinsert (x : String) (l : List String) : l ⊆ pyinsert x l :=
  fun _ ha => mem_pyinsert.mpr (Or.inr ha)

/-! ### Lemmas about `takeWhile` and the hash predicate -/

theorem mem_of_mem_takeWhile {p : Char → Bool} {l : List Char} {a : Char}
    (h : a ∈ l.takeWhile p) : a ∈ l := by
  have := List.takeWhile_append_dropWhile p l
  rw [← this]
  exact List.mem_append.mpr (Or.inl h)

theorem takeWhile_append_of_mem_not {p : Char → Bool} {xs : List Char} (ys : List Char)
    (x : Char) (hx : x ∈ xs) (hpx : p x = false) :
    (xs ++ ys).takeWhile p = xs.takeWhile p := by
  induction xs with
  | nil => cases hx
  | cons c cs ih =>
    by_cases hc : p c
    · have hx' : x ∈ cs := by
        rcases List.mem_cons.mp hx with rfl | h
        · rw [hc] at hpx; cases hpx
        · exact h
      simp [List.takeWhile_cons_of_pos hc, ih hx']
    · simp [List.takeWhile_cons_of_neg hc]

/-! ### Lemmas about `splitFirstColon` -/

theorem splitFirstColon_some {s b a : List Char}
    (h : splitFirstColon s = some (b, a)) : s = b ++ ':' :: a ∧ ':' ∉ b := by
  induction s generalizing b a with
  | nil => simp [splitFirstColon] at h
  | cons c cs ih =>
    by_cases hc : c = ':'
    · subst hc
      simp [splitFirstColon] at h
      obtain ⟨hb, ha⟩ := h
      subst hb; subst ha
      exact ⟨rfl, by simp⟩
    · simp [splitFirstColon, hc] at h
      cases hsc : splitFirstColon cs with
      | none => rw [hsc] at h; cases h
      | some p =>
        obtain ⟨b', a'⟩ := p
        rw [hsc] at h
        simp at h
        obtain ⟨hb, ha⟩ := h
        obtain ⟨hs, hnb⟩ := ih hsc
        subst hb; subst ha
        constructor
        · rw [hs]; rfl
        · intro hmem
          rcases List.mem_cons.mp hmem with h1 | h2
          · exact hc h1.symm
          · exact hnb h2

theorem splitFirstColon_append {b : List Char} (x : List Char) (hb : ':' ∉ b) :
    splitFirstColon (b ++ ':' :: x) = some (b, x) := by
  induction b with
  | nil => simp [splitFirstColon]
  | cons c cs ih =>
    have hc : ¬(c = ':') := fun hh => hb (by rw [hh]; exact List.mem_cons_self _ _)
    have hcs : ':' ∉ cs := fun hh => hb (List.mem_cons_of_mem _ hh)
    simp [splitFirstColon, hc, ih hcs]

theorem splitFirstColon_none {s : List Char} (h : ':' ∉ s) :
    splitFirstColon s = none := by
  induction s with
  | nil => rfl
  | cons c cs ih =>
    have hc : ¬(c = ':') := fun hh => h (by rw [hh]; exact List.mem_cons_self _ _)
    have hcs : ':' ∉ cs := fun hh => h (List.mem_cons_of_mem _ hh)
    simp [splitFirstColon, hc, ih hcs]

theorem validScheme_not_mem_hash {b : List Char} (h : validScheme b = true) :
    '#' ∉ b := by
  intro hmem
  cases b with
  | nil => cases hmem
  | cons c cs =>
    simp [validScheme] at h
    rcases List.mem_cons.mp hmem with h1 | h2
    · rw [← h1] at h
      simp [isSchemeChar] at h
    · have := h.2.2 '#' h2
      simp [isSchemeChar] at this

end Crawl

namespace Crawl

/-! ### The netloc of a URL is unchanged by stripping the fragment -/

theorem takeWhile_notNetlocEnd_beforeHash (r : List Char) :
    (beforeHashL r).takeWhile notNetlocEnd = r.takeWhile notNetlocEnd := by
  unfold beforeHashL
  rw [List.takeWhile_takeWhile]
  congr 1
  funext a
  by_cases h1 : a = '/'
  · subst h1; decide
  · by_cases h2 : a = '?'
    · subst h2; decide
    · by_cases h3 : a = '#'
      · subst h3; decide
      · simp [notNetlocEnd, h1, h2, h3]

theorem netlocRaw_beforeHash (t : List Char) :
    netlocRaw (beforeHashL t) = netlocRaw t := by
  match t with
  | [] => rfl
  | [c] =>
    by_cases hc : c = '#'
    · subst hc; rfl
    · have : beforeHashL [c] = [c] := by simp [beforeHashL, hc]
      rw [this]
  | c :: d :: r =>
    by_cases hc : c = '#'
    · subst hc
      have : beforeHashL ('#' :: d :: r) = [] := by simp [beforeHashL]
      rw [this]
      simp [netlocRaw]
    · by_cases hd : d = '#'
      · subst hd
        have : beforeHashL (c :: '#' :: r) = [c] := by simp [beforeHashL, hc]
        rw [this]
        simp [netlocRaw]
      · have : beforeHashL (c :: d :: r) = c :: d :: beforeHashL r := by
          simp [beforeHashL, hc, hd]
        rw [this]
        simp only [netlocRaw]
        rw [takeWhile_notNetlocEnd_beforeHash]

theorem splitFirstColon_none_not_mem {s : List Char} (h : splitFirstColon s = none) :
    ':' ∉ s := by
  induction s with
  | nil => simp
  | cons c cs ih =>
    intro hmem
    by_cases hc : c = ':'
    · subst hc; simp [splitFirstColon] at h
    · simp [splitFirstColon, hc] at h
      rcases List.mem_cons.mp hmem with h1 | h2
      · exact hc h1.symm
      · cases hsc : splitFirstColon cs with
        | none => exact ih hsc h2
        | some p => rw [hsc] at h; simp at h

theorem dropSchemeL_of_none {s : List Char} (h : splitFirstColon s = none) :
    dropSchemeL s = s := by
  unfold dropSchemeL; rw [h]

theorem dropSchemeL_of_some_valid {s b a : List Char}
    (h : splitFirstColon s = some (b, a)) (hv : validScheme b = true) :
    dropSchemeL s = a := by
  unfold dropSchemeL; rw [h]; simp [hv]

theorem dropSchemeL_of_some_invalid {s b a : List Char}
    (h : splitFirstColon s = some (b, a)) (hv : validScheme b = false) :
    dropSchemeL s = s := by
  unfold dropSchemeL; rw [h]; simp [hv]

theorem beforeHashL_append_colon {b : List Char} (a : List Char) (hnh : '#' ∉ b) :
    beforeHashL (b ++ ':' :: a) = b ++ ':' :: beforeHashL a := by
  unfold beforeHashL
  have h1 : b ++ ':' :: a = (b ++ [':']) ++ a := by simp
  have h2 : b ++ ':' :: a.takeWhile (fun c => !(c == '#')) =
      (b ++ [':']) ++ a.takeWhile (fun c => !(c == '#')) := by simp
  rw [h1, h2, List.takeWhile_append_of_pos]
  intro x hx
  rcases List.mem_append.mp hx with h3 | h4
  · simp
    intro hx'
    exact hnh (hx' ▸ h3)
  · have : x = ':' := List.mem_singleton.mp h4
    subst this; simp

theorem netlocL_beforeHash (s : List Char) :
    netlocL (beforeHashL s) = netlocL s := by
  unfold netlocL
  cases hsc : splitFirstColon s with
  | none =>
    have hns : ':' ∉ s := splitFirstColon_none_not_mem hsc
    have hnb : ':' ∉ beforeHashL s := fun hmem => hns (mem_of_mem_takeWhile hmem)
    rw [dropSchemeL_of_none hsc, dropSchemeL_of_none (splitFirstColon_none hnb)]
    exact netlocRaw_beforeHash s
  | some p =>
    obtain ⟨b, a⟩ := p
    obtain ⟨hs, hcb⟩ := splitFirstColon_some hsc
    by_cases hv : validScheme b = true
    · have hnh : '#' ∉ b := validScheme_not_mem_hash hv
      have hbh : beforeHashL s = b ++ ':' :: beforeHashL a := by
        rw [hs]; exact beforeHashL_append_colon a hnh
      rw [hbh, dropSchemeL_of_some_valid (splitFirstColon_append _ hcb) hv,
        dropSchemeL_of_some_valid hsc hv]
      exact netlocRaw_beforeHash a
    · have hv' : validScheme b = false := by
        cases hvb : validScheme b
        · rfl
        · exact absurd hvb hv
      by_cases hhb : '#' ∈ b
      · have hbh : beforeHashL s = beforeHashL b := by
          rw [hs]
          exact takeWhile_append_of_mem_not _ '#' hhb (by simp)
        have hcolon : ':' ∉ beforeHashL b := fun hmem => hcb (mem_of_mem_takeWhile hmem)
        rw [dropSchemeL_of_some_invalid hsc hv', hbh,
          dropSchemeL_of_none (splitFirstColon_none hcolon), ← hbh]
        exact netlocRaw_beforeHash s
      · have hbh : beforeHashL s = b ++ ':' :: beforeHashL a := by
          rw [hs]; exact beforeHashL_append_colon a hhb
        rw [dropSchemeL_of_some_invalid hsc hv', hbh,
          dropSchemeL_of_some_invalid (splitFirstColon_append _ hcb) hv', ← hbh]
        exact netlocRaw_beforeHash s

theorem netlocS_beforeHashS (u : String) : netlocS (beforeHashS u) = netlocS u := by
  unfold netlocS beforeHashS
  have h1 : (String.mk (beforeHashL u.toList)).toList = beforeHashL u.toList := rfl
  rw [h1, netlocL_beforeHash]

end Crawl

namespace Crawl

/-! ### Membership in the Link Extractor's result -/

theorem mem_foldl_insert_step {β : Type} {g : β → String} {cond : β → Bool}
    {u : String} :
    ∀ (items : List β) (init : List String),
      u ∈ items.foldl
        (fun links m => if cond m then pyinsert (g m) links else links) init →
      u ∈ init ∨ ∃ m, m ∈ items ∧ cond m = true ∧ u = g m := by
  intro items
  induction items with
  | nil => exact fun init h => Or.inl h
  | cons m ms ih =>
    intro init h
    simp only [List.foldl_cons] at h
    rcases ih _ h with hin | ⟨m', hm', hc, hu⟩
    · by_cases hcm : cond m
      · rw [if_pos hcm] at hin
        rcases mem_pyinsert.mp hin with rfl | hin2
        · exact Or.inr ⟨m, by simp, hcm, rfl⟩
        · exact Or.inl hin2
      · rw [if_neg hcm] at hin
        exact Or.inl hin
    · exact Or.inr ⟨m', by simp [hm'], hc, hu⟩

theorem mem_extract_links {cfg : Config} {md base u : String}
    (h : u ∈ extract_links cfg md base) :
    ∃ m : List Char,
      substrS cfg.domain (netlocS (urljoin base (String.mk m))) = true ∧
      u = beforeHashS (urljoin base (String.mk m)) := by
  unfold extract_links at h
  rcases mem_foldl_insert_step _ _ h with hin | ⟨m, _, hc, hu⟩
  · cases hin
  · exact ⟨m, hc, hu⟩

theorem mem_beforeHashS_no_hash {href u : String} (h : u = beforeHashS href) :
    '#' ∉ u.toList := by
  intro hmem
  rw [h] at hmem
  have : (beforeHashS href).toList = beforeHashL href.toList := rfl
  rw [this] at hmem
  have := List.mem_takeWhile_imp hmem
  simp at this

end Crawl

namespace Crawl

/-- C6: every URL returned by the Link Extractor has the configured domain as
a substring of its host and carries no fragment; in particular the example
content yields the fragment-stripped URL. -/
theorem C6_extract_links_postcondition :
    (∀ (cfg : Config) (md base u : String), u ∈ extract_links cfg md base →
      substrS cfg.domain (netlocS u) = true ∧ '#' ∉ u.toList)
    ∧ extract_links cfgD "[x](https://d.com/a#section)" "https://d.com" =
        ["https://d.com/a"] := by
  constructor
  · intro cfg md base u hu
    obtain ⟨m, hc, hu'⟩ := mem_extract_links hu
    constructor
    · rw [hu', netlocS_beforeHashS]
      exact hc
    · exact mem_beforeHashS_no_hash hu'
  · decide

/-- Witness for C6 at a concrete member of a concrete extraction. -/
theorem C6_extract_links_postcondition_witness :
    ("https://d.com/a" ∈
        extract_links cfgD "[x](https://d.com/a#section)" "https://d.com")
    ∧ (substrS cfgD.domain (netlocS "https://d.com/a") = true
        ∧ '#' ∉ "https://d.com/a".toList) :=
  ⟨by decide, C6_extract_links_postcondition.1 cfgD "[x](https://d.com/a#section)"
    "https://d.com" "https://d.com/a" (by decide)⟩

end Crawl

namespace Crawl

/-! ### The Path Mapper claims -/

theorem pyStripL_underscores (s : List Char) :
    pyStripL ['_', '_'] s =
      ((s.dropWhile (fun c => c == '_')).reverse.dropWhile
        (fun c => c == '_')).reverse := by
  unfold pyStripL
  have hfun : (fun c => decide (c ∈ (['_', '_'] : List Char))) =
      (fun c : Char => c == '_') := by
    funext c
    by_cases hc : c = '_'
    · subst hc; decide
    · simp [hc]
  rw [hfun]

/-- C7 (amended): `url2path` matches the spec's pipeline with all leading and
trailing underscore characters stripped, and it is a pure function of the
URL. -/
theorem C7_url2path_amended :
    (∀ (cfg : Config) (url : String), url2path cfg url = url_to_path_amended cfg url)
    ∧ (∀ (cfg : Config) (u v : String), u = v →
        url2path cfg u = url2path cfg v) := by
  constructor
  · intro cfg url
    unfold url2path url_to_path_amended
    rw [pyStripL_underscores]
  · intro cfg u v h
    rw [h]

/-- Witness for C7 at a concrete URL. -/
theorem C7_url2path_amended_witness :
    (url2path cfgD "https://d.com/a" = url_to_path_amended cfgD "https://d.com/a")
    ∧ ("https://d.com/a" = "https://d.com/a"
        ∧ url2path cfgD "https://d.com/a" = url2path cfgD "https://d.com/a") :=
  ⟨C7_url2path_amended.1 cfgD "https://d.com/a",
   rfl, C7_url2path_amended.2 cfgD "https://d.com/a" "https://d.com/a" rfl⟩

/-- C7 counterexample: on `https://d.com/_` the source's charset strip and
the spec's double-underscore strip disagree. -/
theorem C7_strip_counterexample :
    url2path cfgD "https://d.com/_" ≠ url_to_path_specText cfgD "https://d.com/_" := by
  decide

/-! ### Appending logs through the checkers -/

theorem checkFAP_append (l1 l2 : List Event) (seen : List (List String)) :
    checkFetchAfterPersist (l1 ++ l2) seen =
      (checkFetchAfterPersist l1 seen &&
        checkFetchAfterPersist l2 (pushSeen l1 seen)) := by
  induction l1 generalizing seen with
  | nil => simp [checkFetchAfterPersist, pushSeen]
  | cons e rest ih =>
    cases e with
    | persistVisited v =>
      simp only [List.cons_append, checkFetchAfterPersist, pushSeen, List.foldl_cons]
      exact ih (v :: seen)
    | fetch url =>
      simp only [List.cons_append, checkFetchAfterPersist, pushSeen, List.foldl_cons,
        List.append_eq]
      rw [ih seen, Bool.and_assoc]
      rfl
    | scrapeExc url =>
      simp only [List.cons_append, checkFetchAfterPersist, pushSeen, List.foldl_cons]
      exact ih seen
    | persistQueue q v =>
      simp only [List.cons_append, checkFetchAfterPersist, pushSeen, List.foldl_cons]
      exact ih seen

theorem checkQS_append (l1 l2 : List Event) :
    checkQueueSaves (l1 ++ l2) = (checkQueueSaves l1 && checkQueueSaves l2) := by
  induction l1 with
  | nil => simp [checkQueueSaves]
  | cons e rest ih =>
    cases e with
    | persistVisited v => simpa [checkQueueSaves] using ih
    | fetch url => simpa [checkQueueSaves] using ih
    | scrapeExc url => simpa [checkQueueSaves] using ih
    | persistQueue q v =>
      simp only [List.cons_append, checkQueueSaves, List.append_eq]
      rw [ih, Bool.and_assoc]

end Crawl

namespace Crawl

/-! ### State evolution across `crawl_and_scrape` -/

theorem cas_visited_sub (cfg : Config) (fetch : String → FetchOutcome)
    (url : String) (s : CState) :
    s.visited ⊆ (crawl_and_scrape cfg fetch url s).2.visited := by
  unfold crawl_and_scrape
  split
  · exact fun a ha => ha
  · split
    · exact fun a ha => ha
    · split
      · exact fun a ha => subset_pyinsert _ _ ha
      · exact fun a ha => subset_pyinsert _ _ ha
      · simp only []
        split
        · exact fun a ha => subset_pyinsert _ _ ha
        · exact fun a ha => subset_pyinsert _ _ ha

theorem cas_files_sub (cfg : Config) (fetch : String → FetchOutcome)
    (url : String) (s : CState) :
    s.files ⊆ (crawl_and_scrape cfg fetch url s).2.files := by
  unfold crawl_and_scrape
  split
  · exact fun a ha => ha
  · split
    · exact fun a ha => ha
    · split
      · exact fun a ha => ha
      · exact fun a ha => ha
      · simp only []
        split
        · exact fun a ha => subset_pyinsert _ _ ha
        · exact fun a ha => subset_pyinsert _ _ ha

theorem cas_pv (cfg : Config) (fetch : String → FetchOutcome)
    (url : String) (s : CState)
    (h : s.persistedVisited = s.visited) :
    (crawl_and_scrape cfg fetch url s).2.persistedVisited =
      (crawl_and_scrape cfg fetch url s).2.visited := by
  unfold crawl_and_scrape
  split
  · exact h
  · split
    · exact h
    · split
      · rfl
      · rfl
      · simp only []
        split
        · rfl
        · rfl

theorem cas_mem_visited (cfg : Config) (fetch : String → FetchOutcome)
    (url : String) (s : CState)
    (hdom : ¬(substrS cfg.domain (netlocS url) = false)) :
    url ∈ (crawl_and_scrape cfg fetch url s).2.visited := by
  unfold crawl_and_scrape
  split
  · rename_i h
    exact absurd h hdom
  · split
    · rename_i h
      exact h
    · split
      · exact mem_pyinsert_self _ _
      · exact mem_pyinsert_self _ _
      · simp only []
        split
        · exact mem_pyinsert_self _ _
        · exact mem_pyinsert_self _ _

theorem cas_visited_domain (cfg : Config) (fetch : String → FetchOutcome)
    (url : String) (s : CState) :
    ∀ u ∈ (crawl_and_scrape cfg fetch url s).2.visited,
      u ∈ s.visited ∨ substrS cfg.domain (netlocS u) = true := by
  have key : ∀ u ∈ pyinsert url s.visited,
      ¬(substrS cfg.domain (netlocS url) = false) →
      u ∈ s.visited ∨ substrS cfg.domain (netlocS u) = true := by
    intro u hu hdom
    rcases mem_pyinsert.mp hu with rfl | h2
    · cases hs : substrS cfg.domain (netlocS u)
      · exact absurd hs hdom
      · exact Or.inr rfl
    · exact Or.inl h2
  unfold crawl_and_scrape
  split
  · exact fun u hu => Or.inl hu
  · split
    · exact fun u hu => Or.inl hu
    · rename_i hdom _
      split
      · exact fun u hu => key u hu hdom
      · exact fun u hu => key u hu hdom
      · simp only []
        split
        · exact fun u hu => key u hu hdom
        · exact fun u hu => key u hu hdom

end Crawl

namespace Crawl

/-! ### Log evolution across `crawl_and_scrape` -/

theorem pushSeen_append_pv (l : List Event) (v' : List String)
    (seen : List (List String)) :
    pushSeen (l ++ [Event.persistVisited v']) seen = v' :: pushSeen l seen := by
  simp [pushSeen, List.foldl_append]

theorem checkFAP_singleton_pv (v' : List String) (seen : List (List String)) :
    checkFetchAfterPersist [Event.persistVisited v'] seen = true := rfl

theorem checkFAP_fetch_tail (url : String) (v' : List String)
    (seen : List (List String)) (hmem : url ∈ v') (tail : List Event)
    (htail : checkFetchAfterPersist tail (v' :: seen) = true) :
    checkFetchAfterPersist (Event.fetch url :: tail) (v' :: seen) = true := by
  simp only [checkFetchAfterPersist, htail, Bool.and_true]
  rw [List.any_eq_true]
  exact ⟨v', List.mem_cons_self _ _, by simp [hmem]⟩

theorem cas_checkFAP (cfg : Config) (fetch : String → FetchOutcome)
    (url : String) (s : CState) (seen : List (List String))
    (h : checkFetchAfterPersist s.log seen = true) :
    checkFetchAfterPersist (crawl_and_scrape cfg fetch url s).2.log seen = true := by
  have core : ∀ tail : List Event,
      (checkFetchAfterPersist tail (pyinsert url s.visited :: pushSeen s.log seen)
        = true) →
      checkFetchAfterPersist
        ((s.log ++ [Event.persistVisited (pyinsert url s.visited)]) ++
          (Event.fetch url :: tail)) seen = true := by
    intro tail htail
    rw [checkFAP_append, checkFAP_append]
    simp only [h, Bool.true_and, checkFAP_singleton_pv, pushSeen_append_pv]
    exact checkFAP_fetch_tail url _ _ (mem_pyinsert_self _ _) tail htail
  unfold crawl_and_scrape
  split
  · exact h
  · split
    · exact h
    · split
      · exact core [Event.scrapeExc url] rfl
      · exact core [] rfl
      · simp only []
        split
        · have : s.log ++ [Event.persistVisited (pyinsert url s.visited)] ++
              [Event.fetch url] ++ [Event.scrapeExc url] =
              s.log ++ [Event.persistVisited (pyinsert url s.visited)] ++
              (Event.fetch url :: [Event.scrapeExc url]) := by simp
          rw [this]
          exact core [Event.scrapeExc url] rfl
        · exact core [] rfl

theorem cas_checkQS (cfg : Config) (fetch : String → FetchOutcome)
    (url : String) (s : CState)
    (h : checkQueueSaves s.log = true) :
    checkQueueSaves (crawl_and_scrape cfg fetch url s).2.log = true := by
  have seg : ∀ tail : List Event, checkQueueSaves tail = true →
      checkQueueSaves ((s.log ++ [Event.persistVisited (pyinsert url s.visited)]) ++
        (Event.fetch url :: tail)) = true := by
    intro tail htail
    rw [checkQS_append, checkQS_append]
    simp [checkQueueSaves, h, htail]
  unfold crawl_and_scrape
  split
  · exact h
  · split
    · exact h
    · split
      · exact seg [Event.scrapeExc url] rfl
      · exact seg [] rfl
      · simp only []
        split
        · have : s.log ++ [Event.persistVisited (pyinsert url s.visited)] ++
              [Event.fetch url] ++ [Event.scrapeExc url] =
              s.log ++ [Event.persistVisited (pyinsert url s.visited)] ++
              (Event.fetch url :: [Event.scrapeExc url]) := by simp
          rw [this]
          exact seg [Event.scrapeExc url] rfl
        · exact seg [] rfl

theorem fetchCountOf_append (u : String) (l1 l2 : List Event) :
    fetchCountOf u (l1 ++ l2) = fetchCountOf u l1 + fetchCountOf u l2 := by
  simp [fetchCountOf, List.filter_append]

theorem cas_fetchCountOf (cfg : Config) (fetch : String → FetchOutcome)
    (url : String) (s : CState) (u : String) (hne : u ≠ url) :
    fetchCountOf u (crawl_and_scrape cfg fetch url s).2.log =
      fetchCountOf u s.log := by
  have h1 : fetchCountOf u [Event.persistVisited (pyinsert url s.visited)] = 0 := rfl
  have h2 : fetchCountOf u [Event.fetch url] = 0 := by
    simp [fetchCountOf, List.filter, hne.symm]
  have h3 : fetchCountOf u [Event.fetch url, Event.scrapeExc url] = 0 := by
    simp [fetchCountOf, List.filter, hne.symm]
  have h4 : fetchCountOf u [Event.scrapeExc url] = 0 := rfl
  unfold crawl_and_scrape
  split
  · rfl
  · split
    · rfl
    · split
      · simp [fetchCountOf, fetchCountOf_append, List.filter, Ne.symm hne]
      · simp [fetchCountOf, fetchCountOf_append, List.filter, Ne.symm hne]
      · simp only []
        split
        · simp [fetchCountOf, fetchCountOf_append, List.filter, Ne.symm hne]
        · simp [fetchCountOf, fetchCountOf_append, List.filter, Ne.symm hne]

/-! ### The skip branches of `crawl_and_scrape` -/

theorem cas_of_domain_false (cfg : Config) (fetch : String → FetchOutcome)
    (url : String) (s : CState)
    (h : substrS cfg.domain (netlocS url) = false) :
    crawl_and_scrape cfg fetch url s = ([], s) := by
  unfold crawl_and_scrape
  rw [if_pos h]

theorem cas_of_visited (cfg : Config) (fetch : String → FetchOutcome)
    (url : String) (s : CState) (h : url ∈ s.visited) :
    crawl_and_scrape cfg fetch url s = ([], s) := by
  unfold crawl_and_scrape
  split
  · rfl
  · rfl

end Crawl

namespace Crawl

/-! ### State evolution across a round -/

theorem pr_visited_sub (cfg : Config) (fetch : String → FetchOutcome) :
    ∀ (urls : List String) (s : CState),
    s.visited ⊆ (processRound cfg fetch urls s).2.visited := by
  intro urls
  induction urls with
  | nil => exact fun s a ha => ha
  | cons url rest ih =>
    intro s
    unfold processRound
    split
    · exact ih s
    · split
      · exact ih s
      · split
        · exact ih s
        · exact fun a ha => ih _ (cas_visited_sub cfg fetch url s ha)

theorem pr_files_sub (cfg : Config) (fetch : String → FetchOutcome) :
    ∀ (urls : List String) (s : CState),
    s.files ⊆ (processRound cfg fetch urls s).2.files := by
  intro urls
  induction urls with
  | nil => exact fun s a ha => ha
  | cons url rest ih =>
    intro s
    unfold processRound
    split
    · exact ih s
    · split
      · exact ih s
      · split
        · exact ih s
        · exact fun a ha => ih _ (cas_files_sub cfg fetch url s ha)

theorem pr_pv (cfg : Config) (fetch : String → FetchOutcome) :
    ∀ (urls : List String) (s : CState),
    s.persistedVisited = s.visited →
    (processRound cfg fetch urls s).2.persistedVisited =
      (processRound cfg fetch urls s).2.visited := by
  intro urls
  induction urls with
  | nil => exact fun s h => h
  | cons url rest ih =>
    intro s h
    unfold processRound
    split
    · exact ih s h
    · split
      · exact ih s h
      · split
        · exact ih s h
        · exact ih _ (cas_pv cfg fetch url s h)

theorem pr_visited_domain (cfg : Config) (fetch : String → FetchOutcome) :
    ∀ (urls : List String) (s : CState),
    ∀ u ∈ (processRound cfg fetch urls s).2.visited,
      u ∈ s.visited ∨ substrS cfg.domain (netlocS u) = true := by
  intro urls
  induction urls with
  | nil => exact fun s u hu => Or.inl hu
  | cons url rest ih =>
    intro s u
    unfold processRound
    split
    · exact ih s u
    · split
      · exact ih s u
      · split
        · exact ih s u
        · intro hu
          rcases ih _ u hu with h1 | h2
          · exact cas_visited_domain cfg fetch url s u h1
          · exact Or.inr h2

theorem pr_checkFAP (cfg : Config) (fetch : String → FetchOutcome) :
    ∀ (urls : List String) (s : CState) (seen : List (List String)),
    checkFetchAfterPersist s.log seen = true →
    checkFetchAfterPersist (processRound cfg fetch urls s).2.log seen = true := by
  intro urls
  induction urls with
  | nil => exact fun s seen h => h
  | cons url rest ih =>
    intro s seen h
    unfold processRound
    split
    · exact ih s seen h
    · split
      · exact ih s seen h
      · split
        · exact ih s seen h
        · exact ih _ seen (cas_checkFAP cfg fetch url s seen h)

theorem pr_checkQS (cfg : Config) (fetch : String → FetchOutcome) :
    ∀ (urls : List String) (s : CState),
    checkQueueSaves s.log = true →
    checkQueueSaves (processRound cfg fetch urls s).2.log = true := by
  intro urls
  induction urls with
  | nil => exact fun s h => h
  | cons url rest ih =>
    intro s h
    unfold processRound
    split
    · exact ih s h
    · split
      · exact ih s h
      · split
        · exact ih s h
        · exact ih _ (cas_checkQS cfg fetch url s h)

theorem pr_fetchCountOf (cfg : Config) (fetch : String → FetchOutcome) (U : String) :
    ∀ (urls : List String) (s : CState),
    url2path cfg U ∈ s.files →
    fetchCountOf U (processRound cfg fetch urls s).2.log =
      fetchCountOf U s.log := by
  intro urls
  induction urls with
  | nil => exact fun s _ => rfl
  | cons url rest ih =>
    intro s h
    unfold processRound
    split
    · exact ih s h
    · split
      · exact ih s h
      · split
        · exact ih s h
        · rename_i h1 h2 h3
          have hne : U ≠ url := by
            intro heq
            rw [heq] at h
            exact h3 h
          simp only []
          rw [ih _ (cas_files_sub cfg fetch url s h)]
          exact cas_fetchCountOf cfg fetch url s U hne

theorem pr_head_skippable (cfg : Config) (fetch : String → FetchOutcome)
    (url : String) (rest : List String) (s : CState) :
    Skippable cfg url (processRound cfg fetch (url :: rest) s).2 := by
  unfold processRound
  split
  · rename_i h
    exact Or.inl (pr_visited_sub cfg fetch rest s h)
  · split
    · rename_i h
      exact Or.inr (Or.inl h)
    · split
      · rename_i h
        exact Or.inr (Or.inr (Or.inl (pr_files_sub cfg fetch rest s h)))
      · simp only []
        cases hdom : substrS cfg.domain (netlocS url) with
        | false => exact Or.inr (Or.inr (Or.inr hdom))
        | true =>
          have hne : ¬(substrS cfg.domain (netlocS url) = false) := by
            rw [hdom]
            simp
          exact Or.inl (pr_visited_sub cfg fetch rest _
            (cas_mem_visited cfg fetch url s hne))

theorem pr_skip_singleton (cfg : Config) (fetch : String → FetchOutcome)
    (url : String) (s : CState) (h : Skippable cfg url s) :
    processRound cfg fetch [url] s = ([], s) := by
  unfold processRound
  split
  · simp [processRound]
  · split
    · simp [processRound]
    · split
      · simp [processRound]
      · rename_i h1 h2 h3
        rcases h with h | h | h | h
        · exact absurd h h1
        · exact absurd h h2
        · exact absurd h h3
        · simp only []
          rw [cas_of_domain_false cfg fetch url s h]
          simp [processRound]

end Crawl

namespace Crawl

/-! ### State evolution across the round loop -/

theorem loop_visited_sub (cfg : Config) (fetch : String → FetchOutcome) :
    ∀ (fuel : Nat) (q : List String) (s : CState),
    s.visited ⊆ (crawlLoop cfg fetch fuel q s).1.visited := by
  intro fuel
  induction fuel with
  | zero =>
    intro q s
    cases q with
    | nil => exact fun a ha => ha
    | cons u rest => exact fun a ha => ha
  | succ n ih =>
    intro q s
    cases q with
    | nil => exact fun a ha => ha
    | cons u rest =>
      simp only [crawlLoop]
      intro a ha
      exact ih _ _ (pr_visited_sub cfg fetch (u :: rest) s ha)

theorem loop_files_sub (cfg : Config) (fetch : String → FetchOutcome) :
    ∀ (fuel : Nat) (q : List String) (s : CState),
    s.files ⊆ (crawlLoop cfg fetch fuel q s).1.files := by
  intro fuel
  induction fuel with
  | zero =>
    intro q s
    cases q with
    | nil => exact fun a ha => ha
    | cons u rest => exact fun a ha => ha
  | succ n ih =>
    intro q s
    cases q with
    | nil => exact fun a ha => ha
    | cons u rest =>
      simp only [crawlLoop]
      intro a ha
      exact ih _ _ (pr_files_sub cfg fetch (u :: rest) s ha)

theorem loop_pv (cfg : Config) (fetch : String → FetchOutcome) :
    ∀ (fuel : Nat) (q : List String) (s : CState),
    s.persistedVisited = s.visited →
    (crawlLoop cfg fetch fuel q s).1.persistedVisited =
      (crawlLoop cfg fetch fuel q s).1.visited := by
  intro fuel
  induction fuel with
  | zero =>
    intro q s h
    cases q with
    | nil => exact h
    | cons u rest => exact h
  | succ n ih =>
    intro q s h
    cases q with
    | nil => exact h
    | cons u rest =>
      simp only [crawlLoop]
      exact ih _ _ (pr_pv cfg fetch (u :: rest) s h)

theorem loop_visited_domain (cfg : Config) (fetch : String → FetchOutcome) :
    ∀ (fuel : Nat) (q : List String) (s : CState),
    ∀ u ∈ (crawlLoop cfg fetch fuel q s).1.visited,
      u ∈ s.visited ∨ substrS cfg.domain (netlocS u) = true := by
  intro fuel
  induction fuel with
  | zero =>
    intro q s u
    cases q with
    | nil => exact fun hu => Or.inl hu
    | cons v rest => exact fun hu => Or.inl hu
  | succ n ih =>
    intro q s u
    cases q with
    | nil => exact fun hu => Or.inl hu
    | cons v rest =>
      simp only [crawlLoop]
      intro hu
      rcases ih _ _ u hu with h1 | h2
      · exact pr_visited_domain cfg fetch (v :: rest) s u h1
      · exact Or.inr h2

theorem loop_checkFAP (cfg : Config) (fetch : String → FetchOutcome) :
    ∀ (fuel : Nat) (q : List String) (s : CState) (seen : List (List String)),
    checkFetchAfterPersist s.log seen = true →
    checkFetchAfterPersist (crawlLoop cfg fetch fuel q s).1.log seen = true := by
  intro fuel
  induction fuel with
  | zero =>
    intro q s seen h
    cases q with
    | nil => exact h
    | cons u rest => exact h
  | succ n ih =>
    intro q s seen h
    cases q with
    | nil => exact h
    | cons u rest =>
      simp only [crawlLoop]
      apply ih
      simp only []
      rw [checkFAP_append, pr_checkFAP cfg fetch (u :: rest) s seen h]
      simp [checkFetchAfterPersist]

theorem loop_checkQS (cfg : Config) (fetch : String → FetchOutcome) :
    ∀ (fuel : Nat) (q : List String) (s : CState),
    checkQueueSaves s.log = true →
    checkQueueSaves (crawlLoop cfg fetch fuel q s).1.log = true := by
  intro fuel
  induction fuel with
  | zero =>
    intro q s h
    cases q with
    | nil => exact h
    | cons u rest => exact h
  | succ n ih =>
    intro q s h
    cases q with
    | nil => exact h
    | cons u rest =>
      simp only [crawlLoop]
      apply ih
      simp only []
      rw [checkQS_append, pr_checkQS cfg fetch (u :: rest) s h]
      simp only [Bool.true_and, checkQueueSaves]
      rw [Bool.and_eq_true]
      constructor
      · rw [decide_eq_true_iff]
        constructor
        · exact List.nodup_dedup _
        · intro x hx
          have h1 := List.mem_dedup.mp hx
          have h2 := List.mem_filter.mp h1
          simpa using h2.2
      · rfl

end Crawl

namespace Crawl

/-! ### Completion saves an empty queue; a skippable seed is never fetched -/

theorem loop_done_queue (cfg : Config) (fetch : String → FetchOutcome) :
    ∀ (fuel : Nat) (q : List String) (s : CState),
    q ≠ [] → (crawlLoop cfg fetch fuel q s).2 = true →
    (crawlLoop cfg fetch fuel q s).1.persistedQueue = [] := by
  intro fuel
  induction fuel with
  | zero =>
    intro q s hq hdone
    cases q with
    | nil => exact absurd rfl hq
    | cons u rest => exact absurd hdone (by simp [crawlLoop])
  | succ n ih =>
    intro q s hq hdone
    cases q with
    | nil => exact absurd rfl hq
    | cons u rest =>
      simp only [crawlLoop] at hdone ⊢
      cases hq2 : ((processRound cfg fetch (u :: rest) s).1.filter
          (fun l => !(decide (l ∈ (processRound cfg fetch (u :: rest) s).2.visited)))).dedup with
      | nil => simp [crawlLoop]
      | cons v vs =>
        rw [hq2] at hdone
        exact ih _ _ (by simp) hdone

theorem skippable_mono {cfg : Config} {url : String} {s s' : CState}
    (h : Skippable cfg url s)
    (hv : s.visited ⊆ s'.visited) (hf : s.files ⊆ s'.files) :
    Skippable cfg url s' := by
  rcases h with h | h | h | h
  · exact Or.inl (hv h)
  · exact Or.inr (Or.inl h)
  · exact Or.inr (Or.inr (Or.inl (hf h)))
  · exact Or.inr (Or.inr (Or.inr h))

theorem loop_skippable (cfg : Config) (fetch : String → FetchOutcome)
    (url : String) (fuel : Nat) (q : List String) (s : CState)
    (h : Skippable cfg url s) :
    Skippable cfg url (crawlLoop cfg fetch fuel q s).1 :=
  skippable_mono h (loop_visited_sub cfg fetch fuel q s)
    (loop_files_sub cfg fetch fuel q s)

theorem loop_seed_zero_fetch (cfg : Config) (fetch : String → FetchOutcome)
    (seed : String) (fuel : Nat) (s : CState)
    (hskip : Skippable cfg seed s) (hlog : s.log = []) :
    fetchCount (crawlLoop cfg fetch fuel [seed] s).1.log = 0 := by
  cases fuel with
  | zero => simp [crawlLoop, hlog, fetchCount]
  | succ n =>
    simp only [crawlLoop]
    rw [pr_skip_singleton cfg fetch seed s hskip]
    simp [crawlLoop, fetchCount, hlog, isFetchEv, List.filter]

end Crawl

namespace Crawl

/-! ### Run-level consequences -/

theorem crawl_pv_eq (cfg : Config) (fetch : String → FetchOutcome) (fuel : Nat)
    (seed : String) (pv pq f0 : List String) :
    (crawl cfg fetch fuel seed pv pq f0).1.persistedVisited =
      (crawl cfg fetch fuel seed pv pq f0).1.visited := by
  unfold crawl
  exact loop_pv cfg fetch fuel _ _ rfl

theorem crawl_done_queue (cfg : Config) (fetch : String → FetchOutcome)
    (fuel : Nat) (seed : String) (pv f0 : List String)
    (h : (crawl cfg fetch fuel seed pv [] f0).2 = true) :
    (crawl cfg fetch fuel seed pv [] f0).1.persistedQueue = [] := by
  unfold crawl at h ⊢
  exact loop_done_queue cfg fetch fuel _ _ (by simp) h

theorem crawl_seed_skippable (cfg : Config) (fetch : String → FetchOutcome)
    (fuel : Nat) (seed : String) (pv f0 : List String)
    (h : (crawl cfg fetch fuel seed pv [] f0).2 = true) :
    Skippable cfg seed (crawl cfg fetch fuel seed pv [] f0).1 := by
  unfold crawl at h ⊢
  simp only [List.isEmpty_nil, if_pos] at h ⊢
  cases fuel with
  | zero => exact absurd h (by simp [crawlLoop])
  | succ n =>
    simp only [crawlLoop] at h ⊢
    apply loop_skippable
    exact skippable_mono (pr_head_skippable cfg fetch seed [] _)
      (fun a ha => ha) (fun a ha => ha)

end Crawl

namespace Crawl

/-- C1: the crawl-limit signal is not fatal.  With `crawl_limit = 0` and two
fetchable URLs in the queue, the limit is exceeded on the first URL, yet the
second URL is still fetched and the run completes normally: the `raise` at
the end of `crawl_and_scrape` is caught by that function's own per-URL
handler instead of aborting the run. -/
theorem C1_limit_not_fatal_eval :
    fetchCount (crawl cfgLimit0 fetchAllSuccess 3 "https://d.com/s" []
      ["https://d.com/a", "https://d.com/b"] []).1.log = 2
    ∧ (crawl cfgLimit0 fetchAllSuccess 3 "https://d.com/s" []
      ["https://d.com/a", "https://d.com/b"] []).2 = true :=
  ⟨by decide, by decide⟩

/-- C2: a raising fetch is contained to its URL — the URL contributes no
links, the exception is logged with that URL, and the round continues with
the remaining URLs from the post-failure state. -/
theorem C2_per_url_failure_containment (cfg : Config)
    (fetch : String → FetchOutcome) (url : String) (rest : List String)
    (s : CState) (hraise : fetch url = FetchOutcome.raises)
    (hvis : url ∉ s.visited) (hexc : excludedBy cfg url = false)
    (hfile : url2path cfg url ∉ s.files) :
    (crawl_and_scrape cfg fetch url s).1 = []
    ∧ (substrS cfg.domain (netlocS url) = true →
        Event.scrapeExc url ∈ (crawl_and_scrape cfg fetch url s).2.log)
    ∧ processRound cfg fetch (url :: rest) s =
        ((crawl_and_scrape cfg fetch url s).1 ++
          (processRound cfg fetch rest (crawl_and_scrape cfg fetch url s).2).1,
         (processRound cfg fetch rest (crawl_and_scrape cfg fetch url s).2).2) := by
  refine ⟨?_, ?_, ?_⟩
  · unfold crawl_and_scrape
    split
    · rfl
    · simp [hvis, hraise]
  · intro hdom
    unfold crawl_and_scrape
    rw [if_neg (by simp [hdom]), if_neg hvis]
    simp [hraise]
  · conv_lhs => rw [processRound]
    rw [if_neg hvis, if_neg (by simp [hexc]), if_neg hfile]

/-- Witness for C2 at a concrete raising fetch. -/
theorem C2_per_url_failure_containment_witness :
    (fetchRaises "https://d.com/a" = FetchOutcome.raises
      ∧ "https://d.com/a" ∉ emptyState.visited
      ∧ excludedBy cfgD "https://d.com/a" = false
      ∧ url2path cfgD "https://d.com/a" ∉ emptyState.files)
    ∧ ((crawl_and_scrape cfgD fetchRaises "https://d.com/a" emptyState).1 = []
      ∧ (substrS cfgD.domain (netlocS "https://d.com/a") = true →
          Event.scrapeExc "https://d.com/a" ∈
            (crawl_and_scrape cfgD fetchRaises "https://d.com/a" emptyState).2.log)
      ∧ processRound cfgD fetchRaises ["https://d.com/a"] emptyState =
          ((crawl_and_scrape cfgD fetchRaises "https://d.com/a" emptyState).1 ++
            (processRound cfgD fetchRaises []
              (crawl_and_scrape cfgD fetchRaises "https://d.com/a" emptyState).2).1,
           (processRound cfgD fetchRaises []
             (crawl_and_scrape cfgD fetchRaises "https://d.com/a" emptyState).2).2)) :=
  ⟨⟨rfl, by decide, by decide, by decide⟩,
   C2_per_url_failure_containment cfgD fetchRaises "https://d.com/a" [] emptyState
     rfl (by decide) (by decide) (by decide)⟩

/-- C3: in every run, the visited-set containing a URL is persisted strictly
before that URL's fetch is initiated. -/
theorem C3_visited_persisted_before_fetch (cfg : Config)
    (fetch : String → FetchOutcome) (fuel : Nat) (seed : String)
    (pv pq f0 : List String) :
    checkFetchAfterPersist (crawl cfg fetch fuel seed pv pq f0).1.log [] = true := by
  unfold crawl
  exact loop_checkFAP cfg fetch fuel _ _ [] rfl

/-- C4: every queue the run persists is duplicate-free and disjoint from the
in-memory visited-set at the moment of the save. -/
theorem C4_queue_saves_invariant (cfg : Config)
    (fetch : String → FetchOutcome) (fuel : Nat) (seed : String)
    (pv pq f0 : List String) :
    checkQueueSaves (crawl cfg fetch fuel seed pv pq f0).1.log = true := by
  unfold crawl
  exact loop_checkQS cfg fetch fuel _ _ rfl

/-- C5: a URL whose artifact exists when a round begins is never fetched
during that round. -/
theorem C5_no_refetch_for_existing_artifact (cfg : Config)
    (fetch : String → FetchOutcome) (U : String) (urls : List String)
    (s : CState) (h : url2path cfg U ∈ s.files) :
    fetchCountOf U (processRound cfg fetch urls s).2.log =
      fetchCountOf U s.log :=
  pr_fetchCountOf cfg fetch U urls s h

/-- Witness for C5 on a round containing exactly the artifact-bearing URL. -/
theorem C5_no_refetch_for_existing_artifact_witness :
    (url2path cfgD "https://d.com/a" ∈ stateWithArtifact.files)
    ∧ fetchCountOf "https://d.com/a"
        (processRound cfgD fetchAllSuccess ["https://d.com/a"]
          stateWithArtifact).2.log =
      fetchCountOf "https://d.com/a" stateWithArtifact.log :=
  ⟨by decide,
   C5_no_refetch_for_existing_artifact cfgD fetchAllSuccess "https://d.com/a"
     ["https://d.com/a"] stateWithArtifact (by decide)⟩

/-- C8 (amended): when the first run starts with an empty persisted queue and
completes, a second run on the same seed from the persisted state performs
zero fetches, for any fetch engine and any fuel. -/
theorem C8_idempotent_second_run (cfg : Config)
    (fetch1 fetch2 : String → FetchOutcome) (fuel1 fuel2 : Nat) (seed : String)
    (pv f0 : List String)
    (h : (crawl cfg fetch1 fuel1 seed pv [] f0).2 = true) :
    fetchCount (crawl cfg fetch2 fuel2 seed
      (crawl cfg fetch1 fuel1 seed pv [] f0).1.persistedVisited
      (crawl cfg fetch1 fuel1 seed pv [] f0).1.persistedQueue
      (crawl cfg fetch1 fuel1 seed pv [] f0).1.files).1.log = 0 := by
  have hq := crawl_done_queue cfg fetch1 fuel1 seed pv f0 h
  have hpv := crawl_pv_eq cfg fetch1 fuel1 seed pv [] f0
  have hskip := crawl_seed_skippable cfg fetch1 fuel1 seed pv f0 h
  rw [hq, hpv]
  unfold crawl
  apply loop_seed_zero_fetch
  · exact skippable_mono hskip (fun a ha => ha) (fun a ha => ha)
  · rfl

/-- Witness for C8 with a completed fresh first run. -/
theorem C8_idempotent_second_run_witness :
    (crawl cfgD fetchAllSuccess 3 "https://d.com/s" [] [] []).2 = true
    ∧ fetchCount (crawl cfgD fetchAllSuccess 3 "https://d.com/s"
        (crawl cfgD fetchAllSuccess 3 "https://d.com/s" [] [] []).1.persistedVisited
        (crawl cfgD fetchAllSuccess 3 "https://d.com/s" [] [] []).1.persistedQueue
        (crawl cfgD fetchAllSuccess 3 "https://d.com/s" [] [] []).1.files).1.log = 0 :=
  ⟨by decide,
   C8_idempotent_second_run cfgD fetchAllSuccess fetchAllSuccess 3 3
     "https://d.com/s" [] [] (by decide)⟩

/-- C8 counterexample: the first run resumes a persisted queue that does not
contain the seed and completes; the unchanged persisted state then makes the
second run re-seed its frontier and fetch the seed once — not zero fetches. -/
theorem C8_second_run_fetch_counterexample :
    (crawl cfgD fetchAllSuccess 3 "https://d.com/s" [] ["https://d.com/x"] []).2 = true
    ∧ fetchCount (crawl cfgD fetchAllSuccess 3 "https://d.com/s"
        (crawl cfgD fetchAllSuccess 3 "https://d.com/s" []
          ["https://d.com/x"] []).1.persistedVisited
        (crawl cfgD fetchAllSuccess 3 "https://d.com/s" []
          ["https://d.com/x"] []).1.persistedQueue
        (crawl cfgD fetchAllSuccess 3 "https://d.com/s" []
          ["https://d.com/x"] []).1.files).1.log = 1 :=
  ⟨by decide, by decide⟩

/-- C9 (amended): once both persisted-state loads succeed, `crawl` returns
normally for every fetch behavior — the per-URL and top-level handlers catch
everything raised inside the round loop. -/
theorem C9_crawl_normal_after_loads (cfg : Config)
    (fetch : String → FetchOutcome) (fuel : Nat) (seed : String)
    (pv pq f0 : List String) :
    ∃ r, crawlTop cfg fetch fuel seed (Except.ok pv) (Except.ok pq) f0 =
      Except.ok r :=
  ⟨crawl cfg fetch fuel seed pv pq f0, rfl⟩

/-- C9 counterexample: a failing visited-set load (for example malformed
JSON) happens before the round loop's handler and propagates out of
`crawl`. -/
theorem C9_load_error_propagates :
    crawlTop cfgD fetchAllSuccess 1 "https://d.com/s"
      (Except.error "Expecting value: line 1 column 1 (char 0)")
      (Except.ok []) [] =
    Except.error "Expecting value: line 1 column 1 (char 0)" := rfl

/-- C10: every URL in the visited-set after a run was either already in the
persisted visited-set loaded at the start or has the configured domain as a
substring of its host. -/
theorem C10_visited_additions_in_domain (cfg : Config)
    (fetch : String → FetchOutcome) (fuel : Nat) (seed : String)
    (pv pq f0 : List String) :
    ((crawl cfg fetch fuel seed pv pq f0).1.visited).all
      (fun u => decide (u ∈ pv) || substrS cfg.domain (netlocS u)) = true := by
  unfold crawl
  rw [List.all_eq_true]
  intro u hu
  rcases loop_visited_domain cfg fetch fuel _ _ u hu with h1 | h2
  · simp [h1]
  · simp [h2]

end Crawl
